import Mathlib

/-!
# Verification of the Lumix AngelScript binding layer

A shallow embedding, in Lean 4, of the binding/lifecycle layer of the
`lumixengine_angelscript` plugin (`src/angelscript_system.cpp`,
`src/as_script.cpp`).  Machine integers that matter (the u32 dependency
count of the resource blob) are modelled as `Nat` with explicit `% 2^32`
bounds; pointers are modelled as `Option`; engine-side assertion failures
are modelled as `none` results of `Option`-valued operations.

External collaborators (the AngelScript VM, the resource manager, the
byte streams of `core/stream.h`) are not part of this repository; they
are modelled at their interface: the VM as an oracle giving, per source
text, the outcome of `AddScriptSection`/`Build` and the list of exported
function names; streams as token lists (one token per matched
write/read call pair) for world serialization, and as byte lists for
the resource blob whose wire format §6 of the spec fixes exactly
(little-endian u32 count, null-terminated paths, raw trailing source).
-/

namespace LumixAS

/-- `AngelScriptModule::Property::Type` from `angelscript_system.h`:
BOOLEAN, FLOAT, INT, ENTITY, RESOURCE, STRING, COLOR, ANY. -/
inductive PropType
  | boolean
  | float
  | int
  | entity
  | resource
  | str
  | color
  | any
deriving DecidableEq, Repr

/-- Stand-in for the engine's `StableHash(name)` (external `core/hash.h`):
a fixed, deterministic, executable string hash.  The code only ever
compares hashes for equality and stores them, so any fixed function
models it. -/
def stableHash (s : String) : Nat :=
  s.toList.foldl (fun h c => (h * 31 + c.toNat) % 4294967296) 5381

/-- `AngelScriptModule::Property`: a name hash, a type tag and the
textual stored value (`m_stored_value`).  The legacy 32-bit hash field
is never read by the audited code paths and is omitted. -/
structure Property where
  name_hash : Nat
  type : PropType
  stored_value : String
deriving DecidableEq, Repr

/-- The `ScriptInstance::Flags` bitset (ENABLED, LOADED, MOVED_FROM),
modelled field-per-bit; every mutation in the source touches exactly
one of these three bits. -/
structure Flags where
  enabled : Bool
  loaded : Bool
  movedFrom : Bool
deriving DecidableEq, Repr

/-- The observable content of an `asIScriptModule` handle: the script
sections added since the last `Discard`, and the function names the
module exports (empty until a successful `Build`). -/
structure VMModule where
  sections : List (String × String)
  funcs : List String
deriving DecidableEq, Repr

/-- A freshly (re)created module: `GetModule(name, asGM_CREATE_IF_NOT_EXISTS)`
right after a `Discard` yields an empty module. -/
def VMModule.fresh : VMModule := ⟨[], []⟩

/-- The AngelScript engine as an oracle over source text: whether
`AddScriptSection` succeeds, whether `Build` succeeds, and which
functions the built module exports.  Deterministic in the source, as
the VM is. -/
structure VMOracle where
  sectionOk : String → Bool
  buildOk : String → Bool
  funcsOf : String → List String

/-! ## Script Resource (`ASScript`, `as_script.cpp`)

`ASScript::load` parses its binary blob through an `InputMemoryStream`
(external `core/stream.h`): a little-endian `u32` dependency count, then
that many null-terminated path strings, then the raw remainder as
source.  Bytes are `Nat`s below 256. -/

/-- `InputMemoryStream::read<u32>`: consume four little-endian bytes.
`none` models reading past the end of the buffer (undefined in the
source, an open question of the spec). -/
def readU32LE : List Nat → Option (Nat × List Nat)
  | b0 :: b1 :: b2 :: b3 :: rest =>
    some (b0 + 256 * b1 + 65536 * b2 + 16777216 * b3, rest)
  | _ => none

/-- `InputMemoryStream::readString`: consume bytes up to and including
the first null terminator; the consumed bytes (terminator excluded) are
the string. -/
def readCString : List Nat → List Nat × List Nat
  | [] => ([], [])
  | b :: rest =>
    if b = 0 then ([], rest)
    else
      let (s, r) := readCString rest
      (b :: s, r)

/-- The dependency loop of `ASScript::load`: read `n` null-terminated
paths; each is loaded as a strong reference to an `ASScript` of the
same type and pushed onto `m_dependencies` in order (a dependency is
identified here by its path bytes). -/
def readDeps : Nat → List Nat → List (List Nat) × List Nat
  | 0, rest => ([], rest)
  | n + 1, rest =>
    let (p, r1) := readCString rest
    let (ps, r2) := readDeps n r1
    (p :: ps, r2)

/-- `ASScript::load(mem)`: the dependency-count-prefixed header, then the
remaining bytes become `m_source_code`; returns `true` unconditionally.
Result: `(dependency paths in order, source bytes, return value)`. -/
def asScriptLoad (mem : List Nat) : Option (List (List Nat) × List Nat × Bool) :=
  match readU32LE mem with
  | none => none
  | some (n, rest) =>
    let (ps, r) := readDeps n rest
    some (ps, r, true)

/-- Little-endian `u32` encoding, the wire form of the blob's
dependency count (spec §6). -/
def encodeU32LE (n : Nat) : List Nat :=
  [n % 256, n / 256 % 256, n / 65536 % 256, n / 16777216 % 256]

/-- A well-formed resource blob (spec §6): count, null-terminated
paths back to back, then raw source. -/
def encodeBlob (deps : List (List Nat)) (src : List Nat) : List Nat :=
  encodeU32LE deps.length ++ (deps.map (· ++ [0])).flatten ++ src

/-! ## Script Instance / Component model (`angelscript_system.cpp`) -/

/-- `AngelScriptModuleImpl::ScriptEnvironment`: the VM module/context
handle pair shared by script instances and inline scripts. -/
structure ScriptEnvironment where
  scriptModule : Option VMModule
  scriptContext : Bool
deriving DecidableEq, Repr

/-- `AngelScriptModuleImpl::ScriptInstance`: linked resource (by path,
`none` = unlinked), VM module and context handles, reserved module
name, property store and flag set. -/
structure ScriptInstance where
  script : Option String
  scriptModule : Option VMModule
  scriptContext : Bool
  moduleName : String
  properties : List Property
  flags : Flags
deriving DecidableEq, Repr

/-- The `ScriptInstance` constructor: unlinked, a freshly created VM
module under a reserved name, a fresh context, flags = ENABLED. -/
def ScriptInstance.create (name : String) : ScriptInstance :=
  { script := none, scriptModule := some VMModule.fresh, scriptContext := true,
    moduleName := name, properties := [], flags := ⟨true, false, false⟩ }

def ScriptInstance.env (i : ScriptInstance) : ScriptEnvironment :=
  ⟨i.scriptModule, i.scriptContext⟩

/-- `m_script ? m_script->getPath() : Path()`, the serialized path. -/
def ScriptInstance.pathOrEmpty (i : ScriptInstance) : String :=
  match i.script with
  | some p => p
  | none => ""

/-- `AngelScriptModuleImpl::InlineScriptComponent`: literal source on
the entity plus its own VM module/context pair. -/
structure InlineScriptComponent where
  entity : Nat
  source : String
  scriptModule : Option VMModule
  scriptContext : Bool
deriving DecidableEq, Repr

def InlineScriptComponent.env (ic : InlineScriptComponent) : ScriptEnvironment :=
  ⟨ic.scriptModule, ic.scriptContext⟩

/-- `AngelScriptModuleImpl::ScriptComponent`: the entity and its
ordered script slots. -/
structure ScriptComponent where
  entity : Nat
  scripts : List ScriptInstance
deriving DecidableEq, Repr

/-- `ScriptInstance::onScriptUnloaded`: discard the VM module, null its
handle, clear LOADED. -/
def onScriptUnloaded (i : ScriptInstance) : ScriptInstance :=
  { i with scriptModule := none, flags := { i.flags with loaded := false } }

/-- Result of `ScriptInstance::onScriptLoaded`: the new instance state
and whether the `awake` entry point was invoked. -/
structure LoadResult where
  inst : ScriptInstance
  awakeInvoked : Bool
deriving Repr

/-- `ScriptInstance::onScriptLoaded`: bail out when unlinked; discard
the old module and re-create it empty under the same reserved name; add
the resource's source as one section and build; on either VM failure
log and return (flags untouched); on success set LOADED and invoke
`awake` when the built module exports it and a context exists. -/
def onScriptLoaded (vm : VMOracle) (resSource : String → String) (i : ScriptInstance) :
    LoadResult :=
  match i.script with
  | none => ⟨i, false⟩
  | some path =>
    let src := resSource path
    if vm.sectionOk src = false then
      ⟨{ i with scriptModule := some VMModule.fresh }, false⟩
    else if vm.buildOk src = false then
      ⟨{ i with scriptModule := some ⟨[(path, src)], []⟩ }, false⟩
    else
      ⟨{ i with
         scriptModule := some ⟨[(path, src)], vm.funcsOf src⟩,
         flags := { i.flags with loaded := true } },
        (vm.funcsOf src).contains "awake" && i.scriptContext⟩

/-- `AngelScriptModuleImpl::setPath`: unlink any current resource
(unsubscribe + release), then link the new one unless the path is
empty.  Only the resource link changes; module, context, flags and
properties are untouched. -/
def setPath (i : ScriptInstance) (path : String) : ScriptInstance :=
  { i with script := if path = "" then none else some path }

/-- `Property` store update as performed by
`getScriptProperty` + assignment in `setPropertyValue`: overwrite the
first hash match, or emplace a new ANY-typed property at the back. -/
def setPropFirst : List Property → Nat → String → List Property
  | [], h, v => [{ name_hash := h, type := PropType.any, stored_value := v }]
  | p :: rest, h, v =>
    if p.name_hash == h then { p with stored_value := v } :: rest
    else p :: setPropFirst rest h v

/-- The lookup loop of `getPropertyValue`: the first hash match's
stored value, or the empty string (`out[0] = '\0'`). -/
def lookupStored : List Property → Nat → String
  | [], _ => ""
  | p :: rest, h => if p.name_hash == h then p.stored_value else lookupStored rest h

/-- One lifetime operation on a constructed `ScriptInstance`. -/
inductive InstOp
  | load (vm : VMOracle) (resSource : String → String)
  | unload
  | relink (path : String)
  | enable (b : Bool)
  | setProp (name value : String)

def applyInstOp (i : ScriptInstance) : InstOp → ScriptInstance
  | InstOp.load vm rs => (onScriptLoaded vm rs i).inst
  | InstOp.unload => onScriptUnloaded i
  | InstOp.relink p => setPath i p
  | InstOp.enable b => { i with flags := { i.flags with enabled := b } }
  | InstOp.setProp n v => { i with properties := setPropFirst i.properties (stableHash n) v }

def applyInstOps (i : ScriptInstance) (ops : List InstOp) : ScriptInstance :=
  ops.foldl applyInstOp i

/-! ## Function-call builder (`AngelScriptModuleImpl::FunctionCall`) -/

/-- The single shared `FunctionCall` builder instance. -/
structure FunctionCall where
  worldSet : Bool
  parameterCount : Nat
  fcModule : Option VMModule
  fcContext : Bool
  isInProgress : Bool
deriving DecidableEq, Repr

/-- Builder state at `AngelScriptModuleImpl` construction. -/
def FunctionCall.mk0 : FunctionCall := ⟨false, 0, none, false, false⟩

/-! ## Module state (`AngelScriptModuleImpl`)

The two `HashMap`s are modelled as lists in iteration order; `insert`
appends (keys are distinct in every state the code builds). -/

structure ModuleState where
  scripts : List ScriptComponent
  inlineScripts : List InlineScriptComponent
  functionCall : FunctionCall
deriving DecidableEq, Repr

def emptyModuleState : ModuleState := ⟨[], [], FunctionCall.mk0⟩

/-- `m_scripts[entity]` lookup. -/
def findScript (s : ModuleState) (e : Nat) : Option ScriptComponent :=
  s.scripts.find? (fun c => c.entity == e)

/-- `m_inline_scripts.find(entity)`. -/
def findInline (s : ModuleState) (e : Nat) : Option InlineScriptComponent :=
  s.inlineScripts.find? (fun c => c.entity == e)

/-- Replace the component stored under entity `e`. -/
def updateComponent (s : ModuleState) (e : Nat) (c : ScriptComponent) : ModuleState :=
  { s with scripts := s.scripts.map (fun x => if x.entity == e then c else x) }

/-- In-place update of one slot of a slot list. -/
def modAt {α : Type _} (f : α → α) : Nat → List α → List α
  | _, [] => []
  | 0, x :: xs => f x :: xs
  | n + 1, x :: xs => x :: modAt f n xs

/-- `AngelScriptModuleImpl::setScriptPath`: `m_scripts[entity]` asserts
on a missing entity (`none`); an out-of-range slot index hits the
explicit `size() <= scr_index` guard and silently returns; otherwise
`setPath` relinks the slot. -/
def setScriptPath (s : ModuleState) (e idx : Nat) (path : String) : Option ModuleState :=
  match findScript s e with
  | none => none
  | some cmp =>
    if cmp.scripts.length ≤ idx then some s
    else
      some (updateComponent s e
        { cmp with scripts := modAt (fun i => setPath i path) idx cmp.scripts })

/-- `AngelScriptModuleImpl::isScriptEnabled`: both the entity lookup and
the raw slot indexing assert (`none`) when out of range. -/
def isScriptEnabled (s : ModuleState) (e idx : Nat) : Option Bool :=
  match findScript s e with
  | none => none
  | some cmp =>
    match cmp.scripts[idx]? with
    | none => none
    | some i => some i.flags.enabled

/-- `AngelScriptModuleImpl::getPropertyValue`: copy the first
hash-matching property's stored value into the out buffer, or the empty
string; the module state is returned unchanged (the method only
reads). -/
def getPropertyValue (s : ModuleState) (e idx : Nat) (name : String) :
    Option (String × ModuleState) :=
  match findScript s e with
  | none => none
  | some cmp =>
    match cmp.scripts[idx]? with
    | none => none
    | some i => some (lookupStored i.properties (stableHash name), s)

/-- `AngelScriptModuleImpl::setPropertyValue` via `getScriptProperty`:
update the first hash match, or lazily emplace a new ANY-typed property
and store the value into it. -/
def setPropertyValue (s : ModuleState) (e idx : Nat) (name value : String) :
    Option ModuleState :=
  match findScript s e with
  | none => none
  | some cmp =>
    match cmp.scripts[idx]? with
    | none => none
    | some _ =>
      let upd := fun (i : ScriptInstance) =>
        { i with properties := setPropFirst i.properties (stableHash name) value }
      some (updateComponent s e { cmp with scripts := modAt upd idx cmp.scripts })

/-- The property list of one slot, for observing `setPropertyValue`. -/
def propsAt (s : ModuleState) (e idx : Nat) : Option (List Property) :=
  match findScript s e with
  | none => none
  | some cmp => (cmp.scripts[idx]?).map (fun i => i.properties)

/-- `GetFunctionByName` over an environment's module handle. -/
def hasFuncEnv (env : ScriptEnvironment) (f : String) : Bool :=
  match env.scriptModule with
  | none => false
  | some m => m.funcs.contains f

/-- The private `beginFunctionCall(const ScriptEnvironment&, const char*)`:
null when the environment has no module or no context or the module
exports no function of that name (builder untouched); otherwise arm the
shared builder and hand it out. -/
def beginFunctionCallEnv (fc : FunctionCall) (env : ScriptEnvironment) (f : String) :
    Option Unit × FunctionCall :=
  match env.scriptModule with
  | none => (none, fc)
  | some m =>
    if env.scriptContext = false then (none, fc)
    else if (m.funcs.contains f) = false then (none, fc)
    else (some (), ⟨true, 0, some m, env.scriptContext, true⟩)

/-- `beginFunctionCall(EntityRef, int, const char*)`: asserts when a
call is already in progress (`none`); a missing entity returns null; a
bad slot index asserts via the array indexing; otherwise delegates to
the environment variant. -/
def beginFunctionCallEntity (s : ModuleState) (e idx : Nat) (f : String) :
    Option (Option Unit × ModuleState) :=
  if s.functionCall.isInProgress then none
  else
    match findScript s e with
    | none => some (none, s)
    | some cmp =>
      match cmp.scripts[idx]? with
      | none => none
      | some i =>
        let r := beginFunctionCallEnv s.functionCall i.env f
        some (r.1, { s with functionCall := r.2 })

/-- `beginFunctionCallInlineScript`: asserts on reentrant use; a
missing inline component returns null; otherwise delegates to the
environment variant. -/
def beginFunctionCallInline (s : ModuleState) (e : Nat) (f : String) :
    Option (Option Unit × ModuleState) :=
  if s.functionCall.isInProgress then none
  else
    match findInline s e with
    | none => some (none, s)
    | some ic =>
      let r := beginFunctionCallEnv s.functionCall ic.env f
      some (r.1, { s with functionCall := r.2 })

/-- `endFunctionCall`: asserts unless a call is in progress, then
clears `is_in_progress`. -/
def endFunctionCall (s : ModuleState) : Option ModuleState :=
  if s.functionCall.isInProgress then
    some { s with functionCall := { s.functionCall with isInProgress := false } }
  else none

/-- One builder-protocol call at the module's public surface. -/
inductive COp
  | beginSlot (e idx : Nat) (f : String)
  | beginInline (e : Nat) (f : String)
  | endCall
deriving DecidableEq, Repr

def stepOp (s : ModuleState) : COp → Option ModuleState
  | COp.beginSlot e idx f => (beginFunctionCallEntity s e idx f).map (fun r => r.2)
  | COp.beginInline e f => (beginFunctionCallInline s e f).map (fun r => r.2)
  | COp.endCall => endFunctionCall s

def runOps (s : ModuleState) : List COp → Option ModuleState
  | [] => some s
  | op :: rest =>
    match stepOp s op with
    | none => none
    | some s' => runOps s' rest

/-- Well-formed begin/end sequences from a given state: a begin that
hands back null needs no matching end; a begin that hands out the
builder is immediately followed by `endFunctionCall` (whose success is
proved, not assumed: the continuation state records only the flag
clear it performs). -/
inductive WFCalls : ModuleState → List COp → Prop
  | nil (s : ModuleState) : WFCalls s []
  | beginSlotNull {s s' : ModuleState} {e idx : Nat} {f : String} {rest : List COp} :
      beginFunctionCallEntity s e idx f = some (none, s') → WFCalls s' rest →
      WFCalls s (COp.beginSlot e idx f :: rest)
  | beginSlotSome {s s' : ModuleState} {e idx : Nat} {f : String} {rest : List COp} :
      beginFunctionCallEntity s e idx f = some (some (), s') →
      WFCalls { s' with functionCall := { s'.functionCall with isInProgress := false } } rest →
      WFCalls s (COp.beginSlot e idx f :: COp.endCall :: rest)
  | beginInlineNull {s s' : ModuleState} {e : Nat} {f : String} {rest : List COp} :
      beginFunctionCallInline s e f = some (none, s') → WFCalls s' rest →
      WFCalls s (COp.beginInline e f :: rest)
  | beginInlineSome {s s' : ModuleState} {e : Nat} {f : String} {rest : List COp} :
      beginFunctionCallInline s e f = some (some (), s') →
      WFCalls { s' with functionCall := { s'.functionCall with isInProgress := false } } rest →
      WFCalls s (COp.beginInline e f :: COp.endCall :: rest)

/-! ## World serialization (`serialize` / `deserialize`)

One token per matched `OutputMemoryStream` write / `InputMemoryStream`
read pair. -/

inductive Token
  | tInt (n : Nat)
  | tEntity (e : Nat)
  | tStr (s : String)
  | tFlags (f : Flags)
  | tHash (h : Nat)
  | tType (t : PropType)
deriving DecidableEq, Repr

/-- The per-slot write sequence of `AngelScriptModuleImpl::serialize`,
appending to the stream: path (or empty), flag set, property count,
then each property's hash, type and text. -/
def writeInstance (acc : List Token) (i : ScriptInstance) : List Token :=
  i.properties.foldl
    (fun a p => a ++ [Token.tHash p.name_hash, Token.tType p.type, Token.tStr p.stored_value])
    (acc ++ [Token.tStr i.pathOrEmpty, Token.tFlags i.flags, Token.tInt i.properties.length])

/-- Per script component: entity id, slot count, then each slot. -/
def writeComponent (acc : List Token) (c : ScriptComponent) : List Token :=
  c.scripts.foldl writeInstance (acc ++ [Token.tEntity c.entity, Token.tInt c.scripts.length])

/-- `AngelScriptModuleImpl::serialize`: inline count and per-inline
entity/source, then script-component count and the components. -/
def serialize (s : ModuleState) : List Token :=
  s.scripts.foldl writeComponent
    ((s.inlineScripts.foldl (fun a ic => a ++ [Token.tEntity ic.entity, Token.tStr ic.source])
        [Token.tInt s.inlineScripts.length])
      ++ [Token.tInt s.scripts.length])

/-- Stated from the spec's §4.5 write-order sentence: a property is its
(hash, type tag, textual value) triple. -/
def propTokens (p : Property) : List Token :=
  [Token.tHash p.name_hash, Token.tType p.type, Token.tStr p.stored_value]

/-- Stated from the spec's §4.5 write-order sentence: per slot the
resource path or empty, the flag bitset, the property count, then the
properties. -/
def instanceTokens (i : ScriptInstance) : List Token :=
  [Token.tStr i.pathOrEmpty, Token.tFlags i.flags, Token.tInt i.properties.length]
    ++ (i.properties.map propTokens).flatten

/-- Stated from the spec's §4.5 write-order sentence: per component the
entity id, the slot count, then the slots. -/
def componentTokens (c : ScriptComponent) : List Token :=
  [Token.tEntity c.entity, Token.tInt c.scripts.length]
    ++ (c.scripts.map instanceTokens).flatten

/-- Stated from the spec's §4.5 write-order sentence: inline-script
count, per inline component its entity id and literal source, then
script-component count and the components. -/
def specSerialize (s : ModuleState) : List Token :=
  [Token.tInt s.inlineScripts.length]
    ++ (s.inlineScripts.map (fun ic => [Token.tEntity ic.entity, Token.tStr ic.source])).flatten
    ++ [Token.tInt s.scripts.length]
    ++ (s.scripts.map componentTokens).flatten

/-- The property-read loop of `deserialize`: emplace with type ANY,
read the hash, read the serialized type into a local that is never
stored, read the text. -/
def parseProps : Nat → List Token → Option (List Property × List Token)
  | 0, ts => some ([], ts)
  | n + 1, Token.tHash h :: Token.tType _ :: Token.tStr v :: ts =>
    match parseProps n ts with
    | none => none
    | some (ps, r) =>
      some ({ name_hash := h, type := PropType.any, stored_value := v } :: ps, r)
  | _ + 1, _ => none

/-- The slot-read loop of `deserialize`: emplace a fresh instance
(enabled, fresh module/context), read the path, overwrite the flag set,
read the properties, then `setPath`. -/
def parseInstances : Nat → List Token → Option (List ScriptInstance × List Token)
  | 0, ts => some ([], ts)
  | n + 1, Token.tStr path :: Token.tFlags f :: Token.tInt pc :: ts =>
    match parseProps pc ts with
    | none => none
    | some (ps, r1) =>
      match parseInstances n r1 with
      | none => none
      | some (is, r2) =>
        some (setPath { ScriptInstance.create "" with flags := f, properties := ps } path :: is, r2)
  | _ + 1, _ => none

/-- The inline-component read loop of `deserialize`: entity (remapped),
fresh inline component, then its source. -/
def parseInlines (em : Nat → Nat) : Nat → List Token → Option (List InlineScriptComponent × List Token)
  | 0, ts => some ([], ts)
  | n + 1, Token.tEntity e :: Token.tStr src :: ts =>
    match parseInlines em n ts with
    | none => none
    | some (is, r) =>
      let ic : InlineScriptComponent :=
        { entity := em e, source := src, scriptModule := some VMModule.fresh, scriptContext := true }
      some (ic :: is, r)
  | _ + 1, _ => none

/-- The component read loop of `deserialize`: entity (remapped), slot
count, slots. -/
def parseComponents (em : Nat → Nat) : Nat → List Token → Option (List ScriptComponent × List Token)
  | 0, ts => some ([], ts)
  | n + 1, Token.tEntity e :: Token.tInt sc :: ts =>
    match parseInstances sc ts with
    | none => none
    | some (insts, r1) =>
      match parseComponents em n r1 with
      | none => none
      | some (cs, r2) => some ({ entity := em e, scripts := insts } :: cs, r2)
  | _ + 1, _ => none

/-- `AngelScriptModuleImpl::deserialize`: read the inline components,
then the script components, merging both into the existing maps; every
entity id passes through the external entity remap before insertion. -/
def deserialize (ts : List Token) (em : Nat → Nat) (s : ModuleState) :
    Option (ModuleState × List Token) :=
  match ts with
  | Token.tInt ilen :: ts1 =>
    match parseInlines em ilen ts1 with
    | none => none
    | some (ics, ts2) =>
      match ts2 with
      | Token.tInt len :: ts3 =>
        match parseComponents em len ts3 with
        | none => none
        | some (cs, ts4) =>
          let s' := { s with inlineScripts := s.inlineScripts ++ ics, scripts := s.scripts ++ cs }
          some (s', ts4)
      | _ => none
  | _ => none

/-- The state a round trip must restore per slot: resource path,
flag set, property list. -/
def instObs (i : ScriptInstance) : String × Flags × List Property :=
  (i.pathOrEmpty, i.flags, i.properties)

def cmpObs (c : ScriptComponent) : Nat × List (String × Flags × List Property) :=
  (c.entity, c.scripts.map instObs)

def inlineObs (ic : InlineScriptComponent) : Nat × String :=
  (ic.entity, ic.source)

/-- Every property of every slot carries the ANY type tag — the
invariant every reachable world state satisfies, since
`getScriptProperty` and `deserialize` are the only property creators
and both stamp ANY. -/
def allAnyB (s : ModuleState) : Bool :=
  s.scripts.all fun c => c.scripts.all fun i => i.properties.all fun p => p.type == PropType.any

/-! ## Concrete states used by witnesses and counterexamples -/

/-- A VM oracle whose builds always fail. -/
def vmNoBuild : VMOracle := ⟨fun _ => true, fun _ => false, fun _ => []⟩

/-- A VM oracle on which everything succeeds and every build exports
`awake` and `update`. -/
def vmAllOk : VMOracle := ⟨fun _ => true, fun _ => true, fun _ => ["awake", "update"]⟩

/-- An instance currently LOADED and linked to `a.as` (the state
`onScriptLoaded` sees on a reload notification that was not preceded by
an unload). -/
def loadedInst : ScriptInstance :=
  { script := some "a.as", scriptModule := some ⟨[("a.as", "x")], ["awake"]⟩,
    scriptContext := true, moduleName := "m", properties := [], flags := ⟨true, true, false⟩ }

/-- An instance with one ANY-typed property, LOADED and linked. -/
def instEx : ScriptInstance :=
  { script := some "a.as", scriptModule := some VMModule.fresh, scriptContext := true,
    moduleName := "m", properties := [⟨42, PropType.any, "5"⟩], flags := ⟨true, true, false⟩ }

/-- A world with one script component (entity 5, one slot) and one
inline component (entity 7). -/
def stateEx : ModuleState :=
  ⟨[⟨5, [instEx]⟩], [⟨7, "void main()", some VMModule.fresh, true⟩], FunctionCall.mk0⟩

/-- A world with one script component on entity 0 that has zero slots. -/
def stateNoSlots : ModuleState := ⟨[⟨0, []⟩], [], FunctionCall.mk0⟩

/-- A world whose builder has a call in progress. -/
def stateBusy : ModuleState := ⟨[], [], ⟨true, 0, some VMModule.fresh, true, true⟩⟩

/-- A world with one script component (entity 3) whose slot 0 has a
built module exporting `run`. -/
def stateRunnable : ModuleState :=
  ⟨[⟨3, [{ script := some "a.as", scriptModule := some ⟨[("a.as", "x")], ["run"]⟩,
           scriptContext := true, moduleName := "m", properties := [],
           flags := ⟨true, true, false⟩ }]⟩], [], FunctionCall.mk0⟩

/-! ## Theorems -/

theorem readU32LE_encode (n : Nat) (h : n < 4294967296) (rest : List Nat) :
    readU32LE (encodeU32LE n ++ rest) = some (n, rest) := by
  simp only [encodeU32LE, List.cons_append, List.nil_append, readU32LE]
  congr 2
  omega

theorem readCString_append (p rest : List Nat) (h : 0 ∉ p) :
    readCString (p ++ 0 :: rest) = (p, rest) := by
  induction p with
  | nil => simp [readCString]
  | cons b bs ih =>
    simp only [List.mem_cons, not_or] at h
    simp only [List.cons_append, readCString, if_neg (Ne.symm h.1), List.append_eq, ih h.2]

theorem readDeps_append (deps : List (List Nat)) (rest : List Nat)
    (h : ∀ p ∈ deps, 0 ∉ p) :
    readDeps deps.length ((deps.map (· ++ [0])).flatten ++ rest) = (deps, rest) := by
  induction deps with
  | nil => simp [readDeps]
  | cons p ps ih =>
    simp only [List.map_cons, List.flatten_cons, List.length_cons, readDeps,
      List.append_assoc, List.singleton_append, List.cons_append, List.nil_append]
    rw [readCString_append p ((ps.map (· ++ [0])).flatten ++ rest) (h p (List.mem_cons_self p ps))]
    rw [ih (fun q hq => h q (List.mem_cons_of_mem p hq))]

/-- C7: for every well-formed resource blob, `ASScript::load` reads the
u32 dependency count, acquires each of that many null-terminated
dependency paths as a strong script-resource reference in order, takes
exactly the remaining bytes as source text, and returns `true`. -/
theorem asScriptLoad_parses_blob (deps : List (List Nat)) (src : List Nat)
    (hlen : deps.length < 4294967296) (hnz : ∀ p ∈ deps, 0 ∉ p) :
    asScriptLoad (encodeBlob deps src) = some (deps, src, true) := by
  unfold asScriptLoad encodeBlob
  rw [List.append_assoc, readU32LE_encode deps.length hlen]
  simp only
  rw [readDeps_append deps src hnz]

/-- Witness for C7: a blob with dependencies `"a"` and `"bc"` and
source bytes `src`. -/
theorem asScriptLoad_parses_blob_witness :
    asScriptLoad (encodeBlob [[97], [98, 99]] [115, 114, 99])
      = some ([[97], [98, 99]], [115, 114, 99], true) :=
  asScriptLoad_parses_blob [[97], [98, 99]] [115, 114, 99] (by decide) (by decide)

theorem foldl_append_eq {α β : Type _} (g : β → List α) (l : List β) (acc : List α) :
    l.foldl (fun a x => a ++ g x) acc = acc ++ (l.map g).flatten := by
  induction l generalizing acc with
  | nil => simp
  | cons x xs ih => simp [ih, List.append_assoc]

theorem writeInstance_eq (acc : List Token) (i : ScriptInstance) :
    writeInstance acc i = acc ++ instanceTokens i := by
  unfold writeInstance instanceTokens propTokens
  rw [foldl_append_eq]
  simp [List.append_assoc]

theorem writeComponent_eq (acc : List Token) (c : ScriptComponent) :
    writeComponent acc c = acc ++ componentTokens c := by
  unfold writeComponent componentTokens
  have hw : writeInstance = fun a x => a ++ instanceTokens x :=
    funext fun a => funext fun i => writeInstance_eq a i
  rw [hw, foldl_append_eq]
  simp [List.append_assoc]

theorem serialize_eq_spec (s : ModuleState) : serialize s = specSerialize s := by
  unfold serialize specSerialize
  have hw : writeComponent = fun a c => a ++ componentTokens c :=
    funext fun a => funext fun c => writeComponent_eq a c
  rw [hw, foldl_append_eq, foldl_append_eq]

/-- C8: `AngelScriptModuleImpl::serialize` writes exactly, in order:
the inline-script count, per inline component its entity id and literal
source; the script-component count, per component its entity id and
slot count, and per slot the resource path (empty when unlinked), the
flag bitset, the property count, and per property the name hash, type
tag and textual value. -/
theorem serialize_write_order (s : ModuleState) : serialize s = specSerialize s :=
  serialize_eq_spec s

/-- C5: the environment-level `beginFunctionCall` returns null exactly
when the target has no VM module, no VM context, or its compiled module
exports no function of the requested name; and whenever it returns
null the shared builder is left untouched. -/
theorem beginFunctionCall_null_iff (fc : FunctionCall) (env : ScriptEnvironment) (f : String) :
    ((beginFunctionCallEnv fc env f).1 = none ↔
      (env.scriptModule = none ∨ env.scriptContext = false ∨ hasFuncEnv env f = false))
    ∧ ((beginFunctionCallEnv fc env f).1 = none → (beginFunctionCallEnv fc env f).2 = fc) := by
  obtain ⟨m, ctx⟩ := env
  unfold beginFunctionCallEnv hasFuncEnv
  cases m with
  | none => simp
  | some mm =>
    cases ctx with
    | false => simp
    | true => by_cases hf : f ∈ mm.funcs <;> simp [hf]

/-- Witness for C5: a target with no VM module yields null and leaves
the builder untouched. -/
theorem beginFunctionCall_null_iff_witness :
    (beginFunctionCallEnv FunctionCall.mk0 ⟨none, false⟩ "run").1 = none
    ∧ (beginFunctionCallEnv FunctionCall.mk0 ⟨none, false⟩ "run").2 = FunctionCall.mk0 := by
  have h := beginFunctionCall_null_iff FunctionCall.mk0 ⟨none, false⟩ "run"
  exact ⟨h.1.mpr (Or.inl rfl), h.2 (h.1.mpr (Or.inl rfl))⟩

theorem beginEnv_some_inProgress {fc fc' : FunctionCall} {env : ScriptEnvironment}
    {f : String} {u : Unit} (h : beginFunctionCallEnv fc env f = (some u, fc')) :
    fc'.isInProgress = true := by
  obtain ⟨m, ctx⟩ := env
  unfold beginFunctionCallEnv at h
  cases m with
  | none => simp at h
  | some mm =>
    cases ctx with
    | false => simp at h
    | true =>
      dsimp only at h
      rw [if_neg (by decide : ¬(true = false))] at h
      by_cases hc : mm.funcs.contains f = false
      · rw [if_pos hc] at h
        exact absurd h (by simp)
      · rw [if_neg hc] at h
        have h2 := congrArg Prod.snd h
        simp only at h2
        rw [← h2]

theorem beginEntity_some_inProgress {s s' : ModuleState} {e idx : Nat} {f : String} {u : Unit}
    (h : beginFunctionCallEntity s e idx f = some (some u, s')) :
    s'.functionCall.isInProgress = true := by
  unfold beginFunctionCallEntity at h
  split at h
  · exact absurd h (by simp)
  · split at h
    · simp at h
    · split at h
      · exact absurd h (by simp)
      next i heq =>
        simp only [Option.some.injEq, Prod.mk.injEq] at h
        obtain ⟨h1, h2⟩ := h
        have h3 : s'.functionCall = (beginFunctionCallEnv s.functionCall i.env f).2 :=
          congrArg ModuleState.functionCall h2.symm
        rw [h3]
        exact beginEnv_some_inProgress (by rw [← h1])

theorem beginInline_some_inProgress {s s' : ModuleState} {e : Nat} {f : String} {u : Unit}
    (h : beginFunctionCallInline s e f = some (some u, s')) :
    s'.functionCall.isInProgress = true := by
  unfold beginFunctionCallInline at h
  split at h
  · exact absurd h (by simp)
  · split at h
    · simp at h
    next ic heq =>
      simp only [Option.some.injEq, Prod.mk.injEq] at h
      obtain ⟨h1, h2⟩ := h
      have h3 : s'.functionCall = (beginFunctionCallEnv s.functionCall ic.env f).2 :=
        congrArg ModuleState.functionCall h2.symm
      rw [h3]
      exact beginEnv_some_inProgress (by rw [← h1])

theorem runOps_cons_some {s s' : ModuleState} {op : COp} {rest : List COp}
    (h : stepOp s op = some s') : runOps s (op :: rest) = runOps s' rest := by
  have he : runOps s (op :: rest)
      = match stepOp s op with | none => none | some x => runOps x rest := rfl
  rw [he, h]

/-- C6: both public `beginFunctionCall` entry points assert when a call
is already in progress; `endFunctionCall` asserts when none is; and no
well-formed begin/end sequence ever trips the `endFunctionCall`
assertion. -/
theorem functionCall_assert_discipline :
    (∀ (s : ModuleState) (e idx : Nat) (f : String),
        s.functionCall.isInProgress = true → beginFunctionCallEntity s e idx f = none)
    ∧ (∀ (s : ModuleState) (e : Nat) (f : String),
        s.functionCall.isInProgress = true → beginFunctionCallInline s e f = none)
    ∧ (∀ s : ModuleState,
        s.functionCall.isInProgress = false → endFunctionCall s = none)
    ∧ (∀ (s : ModuleState) (ops : List COp),
        WFCalls s ops → (runOps s ops).isSome = true) := by
  refine ⟨?_, ?_, ?_, ?_⟩
  · intro s e idx f h
    unfold beginFunctionCallEntity
    simp [h]
  · intro s e f h
    unfold beginFunctionCallInline
    simp [h]
  · intro s h
    unfold endFunctionCall
    simp [h]
  · intro s ops hwf
    induction hwf with
    | nil => simp [runOps]
    | @beginSlotNull s s' e idx f rest h hwf ih =>
      rw [runOps_cons_some (show stepOp s (COp.beginSlot e idx f) = some s' by
        simp [stepOp, h])]
      exact ih
    | @beginSlotSome s s' e idx f rest h hwf ih =>
      have hip := beginEntity_some_inProgress h
      rw [runOps_cons_some (show stepOp s (COp.beginSlot e idx f) = some s' by
        simp [stepOp, h])]
      rw [runOps_cons_some (show stepOp s' COp.endCall
        = some { s' with functionCall := { s'.functionCall with isInProgress := false } } by
        simp [stepOp, endFunctionCall, hip])]
      exact ih
    | @beginInlineNull s s' e f rest h hwf ih =>
      rw [runOps_cons_some (show stepOp s (COp.beginInline e f) = some s' by
        simp [stepOp, h])]
      exact ih
    | @beginInlineSome s s' e f rest h hwf ih =>
      have hip := beginInline_some_inProgress h
      rw [runOps_cons_some (show stepOp s (COp.beginInline e f) = some s' by
        simp [stepOp, h])]
      rw [runOps_cons_some (show stepOp s' COp.endCall
        = some { s' with functionCall := { s'.functionCall with isInProgress := false } } by
        simp [stepOp, endFunctionCall, hip])]
      exact ih

/-- Witness for C6: the busy builder rejects both begin variants and a
fresh world rejects `endFunctionCall`; a well-formed sequence (a begin
that acquires the builder on entity 3 slot 0, then the matching end)
runs without tripping an assertion. -/
theorem functionCall_assert_discipline_witness :
    beginFunctionCallEntity stateBusy 0 0 "run" = none
    ∧ beginFunctionCallInline stateBusy 0 "run" = none
    ∧ endFunctionCall emptyModuleState = none
    ∧ (runOps stateRunnable [COp.beginSlot 3 0 "run", COp.endCall]).isSome = true := by
  refine ⟨functionCall_assert_discipline.1 stateBusy 0 0 "run" rfl,
    functionCall_assert_discipline.2.1 stateBusy 0 "run" rfl,
    functionCall_assert_discipline.2.2.1 emptyModuleState rfl,
    functionCall_assert_discipline.2.2.2 stateRunnable _ ?_⟩
  exact WFCalls.beginSlotSome (by rfl) (WFCalls.nil _)

/-- Counterexample to C2: on an instance that is already LOADED (the
reload situation the claim names explicitly), a build failure leaves
the LOADED flag set — `onScriptLoaded` returns early without touching
`m_flags`, so the flag is not left unset as claimed. -/
theorem onScriptLoaded_reload_failure_keeps_loaded :
    (onScriptLoaded vmNoBuild (fun _ => "x") loadedInst).inst.flags.loaded = true
    ∧ vmNoBuild.buildOk "x" = false
    ∧ loadedInst.flags.loaded = true :=
  ⟨rfl, rfl, rfl⟩

/-- C2 amended: when `AddScriptSection` or `Build` fails,
`onScriptLoaded` leaves the whole flag set unchanged — so LOADED stays
unset on a first load and stays set on a reload — and never invokes
`awake`. -/
theorem onScriptLoaded_failure_flags_unchanged (vm : VMOracle) (rs : String → String)
    (i : ScriptInstance) (p : String) (hp : i.script = some p)
    (hfail : vm.sectionOk (rs p) = false ∨ vm.buildOk (rs p) = false) :
    (onScriptLoaded vm rs i).inst.flags = i.flags
    ∧ (onScriptLoaded vm rs i).awakeInvoked = false := by
  unfold onScriptLoaded
  rw [hp]
  cases h1 : vm.sectionOk (rs p) <;> cases h2 : vm.buildOk (rs p) <;> simp_all

/-- Witness for C2 amended: a first-load instance whose build fails
ends with its flags (LOADED unset) intact and no `awake` call. -/
theorem onScriptLoaded_failure_flags_unchanged_witness :
    (onScriptLoaded vmNoBuild (fun _ => "x")
        { ScriptInstance.create "m" with script := some "a.as" }).inst.flags
      = ({ ScriptInstance.create "m" with script := some "a.as" }).flags
    ∧ (onScriptLoaded vmNoBuild (fun _ => "x")
        { ScriptInstance.create "m" with script := some "a.as" }).awakeInvoked = false :=
  onScriptLoaded_failure_flags_unchanged vmNoBuild (fun _ => "x")
    { ScriptInstance.create "m" with script := some "a.as" } "a.as" rfl (Or.inr rfl)

/-- Counterexample to C4: a freshly constructed, never-moved instance
has its VM module handle set to null by `onScriptUnloaded`
(`m_script_module->Discard(); m_script_module = nullptr;`), so the
module handle does not stay non-null across an unload transition. -/
theorem module_handle_null_after_unload :
    (applyInstOps (ScriptInstance.create "m") [InstOp.unload]).scriptModule = none := rfl

theorem applyInstOp_preserves_context (i : ScriptInstance) (op : InstOp) :
    (applyInstOp i op).scriptContext = i.scriptContext := by
  cases op with
  | load vm rs =>
    show (onScriptLoaded vm rs i).inst.scriptContext = i.scriptContext
    unfold onScriptLoaded
    cases hs : i.script with
    | none => rfl
    | some p =>
      dsimp only
      split
      · rfl
      · split <;> rfl
  | unload => rfl
  | relink p => rfl
  | enable b => rfl
  | setProp n v => rfl

/-- C4 amended: the VM context handle of a constructed (never
moved-from) instance stays non-null through every lifetime operation;
the VM module handle is nulled by `onScriptUnloaded` and stays null
until the next `onScriptLoaded` on a linked instance recreates it
(non-null again even when the rebuild fails). -/
theorem instance_handles_lifetime (i : ScriptInstance) (ops : List InstOp)
    (hctx : i.scriptContext = true) :
    ((applyInstOps i ops).scriptContext = true)
    ∧ ((onScriptUnloaded i).scriptModule = none)
    ∧ (∀ (vm : VMOracle) (rs : String → String) (p : String),
        i.script = some p → ((onScriptLoaded vm rs i).inst.scriptModule).isSome = true) := by
  refine ⟨?_, rfl, ?_⟩
  · induction ops generalizing i with
    | nil => exact hctx
    | cons op rest ih =>
      show (applyInstOps (applyInstOp i op) rest).scriptContext = true
      exact ih _ ((applyInstOp_preserves_context i op).trans hctx)
  · intro vm rs p hp
    unfold onScriptLoaded
    rw [hp]
    dsimp only
    split
    · rfl
    · split <;> rfl

/-- Witness for C4 amended: a fresh instance linked to `a.as`, taken
through an unload and a (failing-build) reload. -/
theorem instance_handles_lifetime_witness :
    ((applyInstOps { ScriptInstance.create "m" with script := some "a.as" }
        [InstOp.unload, InstOp.load vmNoBuild (fun _ => "x")]).scriptContext = true)
    ∧ ((onScriptUnloaded { ScriptInstance.create "m" with script := some "a.as" }).scriptModule
        = none)
    ∧ (((onScriptLoaded vmNoBuild (fun _ => "x")
          { ScriptInstance.create "m" with script := some "a.as" }).inst.scriptModule).isSome
        = true) :=
  have h := instance_handles_lifetime { ScriptInstance.create "m" with script := some "a.as" }
    [InstOp.unload, InstOp.load vmNoBuild (fun _ => "x")] rfl
  ⟨h.1, h.2.1, h.2.2 vmNoBuild (fun _ => "x") "a.as" rfl⟩

/-- Counterexample to C9: on a component with zero slots,
`setScriptPath(entity 0, slot 0, ...)` hits the explicit
`size() <= scr_index` guard and silently returns with the world
unchanged — no assertion fires, contradicting the claim that an
out-of-range slot index is a fatal contract violation there. -/
theorem setScriptPath_out_of_range_silent :
    setScriptPath stateNoSlots 0 0 "a.as" = some stateNoSlots
    ∧ setScriptPath stateNoSlots 0 0 "a.as" ≠ none :=
  ⟨rfl, by decide⟩

/-- C9 amended: for a present entity and an out-of-range slot index,
`setScriptPath` is a silent no-op (its guard returns early, leaving the
world unchanged), while per-slot accessors that index the slot array
directly — `isScriptEnabled` here — do assert. -/
theorem out_of_range_slot_behavior (s : ModuleState) (e idx : Nat) (p : String)
    (cmp : ScriptComponent) (hfind : findScript s e = some cmp)
    (hidx : cmp.scripts.length ≤ idx) :
    setScriptPath s e idx p = some s ∧ isScriptEnabled s e idx = none := by
  have hnone : cmp.scripts[idx]? = none := by
    rw [List.getElem?_eq_none_iff]
    exact hidx
  constructor
  · unfold setScriptPath
    rw [hfind]
    dsimp only
    rw [if_pos hidx]
  · unfold isScriptEnabled
    rw [hfind]
    dsimp only
    rw [hnone]

/-- Witness for C9 amended: the zero-slot component on entity 0. -/
theorem out_of_range_slot_behavior_witness :
    setScriptPath stateNoSlots 0 2 "a.as" = some stateNoSlots
    ∧ isScriptEnabled stateNoSlots 0 2 = none :=
  out_of_range_slot_behavior stateNoSlots 0 2 "a.as" ⟨0, []⟩ rfl (by decide)

theorem modAt_length {α : Type _} (f : α → α) (idx : Nat) (l : List α) :
    (modAt f idx l).length = l.length := by
  induction l generalizing idx with
  | nil => cases idx <;> rfl
  | cons x xs ih => cases idx <;> simp [modAt, ih]

theorem modAt_getElem? {α : Type _} (f : α → α) (idx : Nat) (l : List α) :
    (modAt f idx l)[idx]? = (l[idx]?).map f := by
  induction l generalizing idx with
  | nil => cases idx <;> rfl
  | cons x xs ih => cases idx <;> simp [modAt, ih]

theorem modAt_modAt {α : Type _} (f g : α → α) (idx : Nat) (l : List α) :
    modAt f idx (modAt g idx l) = modAt (fun x => f (g x)) idx l := by
  induction l generalizing idx with
  | nil => cases idx <;> rfl
  | cons x xs ih => cases idx <;> simp [modAt, ih]

theorem find?_map_replace (l : List ScriptComponent) (e : Nat) (c cmp : ScriptComponent)
    (hfind : l.find? (fun x => x.entity == e) = some cmp) (hc : (c.entity == e) = true) :
    (l.map (fun x => if x.entity == e then c else x)).find? (fun x => x.entity == e) = some c := by
  induction l with
  | nil => simp at hfind
  | cons x xs ih =>
    by_cases hx : (x.entity == e) = true
    · simp only [List.map_cons, if_pos hx, List.find?, hc]
    · have hx' : (x.entity == e) = false := by
        cases hxx : x.entity == e
        · rfl
        · exact absurd hxx hx
      simp only [List.find?, hx'] at hfind
      simp only [List.map_cons, if_neg hx]
      simp only [List.find?, hx']
      exact ih hfind

theorem findScript_updateComponent (s : ModuleState) (e : Nat) (c cmp : ScriptComponent)
    (hfind : findScript s e = some cmp) (hc : (c.entity == e) = true) :
    findScript (updateComponent s e c) e = some c := by
  unfold findScript updateComponent at *
  exact find?_map_replace s.scripts e c cmp hfind hc

theorem updateComponent_twice (s : ModuleState) (e : Nat) (c1 c2 : ScriptComponent)
    (h : (c1.entity == e) = true) :
    updateComponent (updateComponent s e c1) e c2 = updateComponent s e c2 := by
  unfold updateComponent
  simp only [List.map_map]
  congr 1
  apply List.map_congr_left
  intro x _
  by_cases hx : (x.entity == e) = true
  · simp [Function.comp, hx, h]
  · simp [Function.comp, hx]

theorem setPath_setPath (i : ScriptInstance) (p : String) :
    setPath (setPath i p) p = setPath i p := rfl

/-- C3: for a present entity and in-range slot, calling
`setScriptPath` twice with the same path produces exactly the same
world state as calling it once — in particular the same linked
resource, the same LOADED flag and the same VM module content, none of
which the second call touches. -/
theorem setScriptPath_idempotent (s : ModuleState) (e idx : Nat) (p : String)
    (cmp : ScriptComponent) (hfind : findScript s e = some cmp)
    (hidx : idx < cmp.scripts.length) :
    (setScriptPath s e idx p).bind (fun s1 => setScriptPath s1 e idx p)
      = setScriptPath s e idx p := by
  have hce : (cmp.entity == e) = true := by
    have h := hfind
    unfold findScript at h
    exact @List.find?_some ScriptComponent (fun c => c.entity == e) cmp s.scripts h
  have h1 : setScriptPath s e idx p
      = some (updateComponent s e
          { cmp with scripts := modAt (fun i => setPath i p) idx cmp.scripts }) := by
    unfold setScriptPath
    rw [hfind]
    dsimp only
    rw [if_neg (Nat.not_le.mpr hidx)]
  rw [h1]
  show setScriptPath (updateComponent s e
      { cmp with scripts := modAt (fun i => setPath i p) idx cmp.scripts }) e idx p
    = some (updateComponent s e
        { cmp with scripts := modAt (fun i => setPath i p) idx cmp.scripts })
  have hfind1 := findScript_updateComponent s e
    { cmp with scripts := modAt (fun i => setPath i p) idx cmp.scripts } cmp hfind hce
  unfold setScriptPath
  rw [hfind1]
  dsimp only
  rw [if_neg (by
    rw [modAt_length]
    exact Nat.not_le.mpr hidx)]
  have hmm : modAt (fun i => setPath i p) idx
        (modAt (fun i => setPath i p) idx cmp.scripts)
      = modAt (fun i => setPath i p) idx cmp.scripts := by
    rw [modAt_modAt]
    congr 1
  rw [hmm]
  rw [updateComponent_twice s e { cmp with scripts := modAt (fun i => setPath i p) idx cmp.scripts } { cmp with scripts := modAt (fun i => setPath i p) idx cmp.scripts } hce]

/-- Witness for C3: rebinding slot 0 of entity 5 to `b.as` twice. -/
theorem setScriptPath_idempotent_witness :
    (setScriptPath stateEx 5 0 "b.as").bind (fun s1 => setScriptPath s1 5 0 "b.as")
      = setScriptPath stateEx 5 0 "b.as" :=
  setScriptPath_idempotent stateEx 5 0 "b.as" ⟨5, [instEx]⟩ rfl (by decide)

theorem lookupStored_eq_find (props : List Property) (h : Nat) :
    lookupStored props h
      = (match props.find? (fun q => q.name_hash == h) with
         | some q => q.stored_value
         | none => "") := by
  induction props with
  | nil => rfl
  | cons q qs ih =>
    by_cases hq : (q.name_hash == h) = true
    · simp [lookupStored, List.find?, hq]
    · have hq' : (q.name_hash == h) = false := by
        cases hx : q.name_hash == h
        · rfl
        · exact absurd hx hq
      simp [lookupStored, List.find?, hq', ih]

theorem setPropFirst_not_found (props : List Property) (h : Nat) (v : String)
    (hn : props.find? (fun q => q.name_hash == h) = none) :
    setPropFirst props h v
      = props ++ [{ name_hash := h, type := PropType.any, stored_value := v }] := by
  induction props with
  | nil => rfl
  | cons q qs ih =>
    by_cases hq : (q.name_hash == h) = true
    · rw [List.find?_cons] at hn
      simp only [hq] at hn
      exact Option.noConfusion hn
    · have hq' : (q.name_hash == h) = false := by
        cases hx : q.name_hash == h
        · rfl
        · exact absurd hx hq
      rw [List.find?_cons] at hn
      simp only [hq'] at hn
      simp only [setPropFirst, if_neg hq, ih hn, List.cons_append]

/-- C10: `getPropertyValue` writes the first stored value whose name
hash matches (the empty string when none does) and leaves the world —
in particular the slot's property list — unchanged, while
`setPropertyValue` on a missing name lazily appends a new ANY-typed
property holding the value. -/
theorem getPropertyValue_reads_only (s : ModuleState) (e idx : Nat) (name value : String)
    (cmp : ScriptComponent) (inst : ScriptInstance)
    (hfind : findScript s e = some cmp) (hidx : cmp.scripts[idx]? = some inst) :
    (getPropertyValue s e idx name
      = some ((match inst.properties.find? (fun q => q.name_hash == stableHash name) with
               | some q => q.stored_value
               | none => ""), s))
    ∧ (inst.properties.find? (fun q => q.name_hash == stableHash name) = none →
        (setPropertyValue s e idx name value).bind (fun s1 => propsAt s1 e idx)
          = some (inst.properties
              ++ [{ name_hash := stableHash name, type := PropType.any, stored_value := value }])) := by
  have hce : (cmp.entity == e) = true := by
    have h := hfind
    unfold findScript at h
    exact @List.find?_some ScriptComponent (fun c => c.entity == e) cmp s.scripts h
  constructor
  · unfold getPropertyValue
    rw [hfind]
    dsimp only
    rw [hidx]
    dsimp only
    rw [lookupStored_eq_find]
  · intro hnone
    have h1 : setPropertyValue s e idx name value
        = some (updateComponent s e
            { cmp with scripts := modAt (fun i => { i with properties := setPropFirst i.properties (stableHash name) value }) idx cmp.scripts }) := by
      unfold setPropertyValue
      rw [hfind]
      dsimp only
      rw [hidx]
    rw [h1]
    show propsAt (updateComponent s e
        { cmp with scripts := modAt (fun i => { i with properties := setPropFirst i.properties (stableHash name) value }) idx cmp.scripts }) e idx
      = some (inst.properties
          ++ [{ name_hash := stableHash name, type := PropType.any, stored_value := value }])
    have hfind1 := findScript_updateComponent s e
      { cmp with scripts := modAt (fun i => { i with properties := setPropFirst i.properties (stableHash name) value }) idx cmp.scripts } cmp hfind hce
    unfold propsAt
    rw [hfind1]
    dsimp only
    rw [modAt_getElem?, hidx]
    simp only [Option.map]
    rw [setPropFirst_not_found _ _ _ hnone]

/-- Witness for C10: entity 5 slot 0 has only the hash-42 property, so
`"speed"` misses: the read yields the empty string and leaves the
state, and a set appends the new ANY property. -/
theorem getPropertyValue_reads_only_witness :
    (getPropertyValue stateEx 5 0 "speed"
      = some ((match instEx.properties.find? (fun q => q.name_hash == stableHash "speed") with
               | some q => q.stored_value
               | none => ""), stateEx))
    ∧ ((setPropertyValue stateEx 5 0 "speed" "7").bind (fun s1 => propsAt s1 5 0)
        = some (instEx.properties
            ++ [{ name_hash := stableHash "speed", type := PropType.any, stored_value := "7" }])) := by
  have h := getPropertyValue_reads_only stateEx 5 0 "speed" "7" ⟨5, [instEx]⟩ instEx rfl rfl
  exact ⟨h.1, h.2 (by decide)⟩

theorem pathOrEmpty_setPath (i : ScriptInstance) (p : String) :
    (setPath i p).pathOrEmpty = p := by
  unfold setPath ScriptInstance.pathOrEmpty
  by_cases hp : p = ""
  · simp [hp]
  · simp [hp]

theorem parseProps_serialized (ps : List Property) :
    ∀ rest : List Token, ps.all (fun p => p.type == PropType.any) = true →
      parseProps ps.length ((ps.map propTokens).flatten ++ rest) = some (ps, rest) := by
  induction ps with
  | nil => intro rest _; rfl
  | cons p ps ih =>
    intro rest h
    simp only [List.all_cons, Bool.and_eq_true] at h
    obtain ⟨hp, hps⟩ := h
    obtain ⟨nh, t, sv⟩ := p
    have ht : t = PropType.any := by
      revert hp
      dsimp only
      cases t <;> decide
    subst ht
    simp only [List.map_cons, List.flatten_cons, List.length_cons, propTokens,
      List.cons_append, List.append_assoc, List.nil_append]
    simp only [parseProps, ih rest hps]

theorem parseInstances_serialized (is : List ScriptInstance) :
    ∀ rest : List Token,
      is.all (fun i => i.properties.all (fun p => p.type == PropType.any)) = true →
      (parseInstances is.length ((is.map instanceTokens).flatten ++ rest)).map
          (fun r => (r.1.map instObs, r.2))
        = some (is.map instObs, rest) := by
  induction is with
  | nil => intro rest _; rfl
  | cons i is ih =>
    intro rest h
    simp only [List.all_cons, Bool.and_eq_true] at h
    obtain ⟨hi, his⟩ := h
    simp only [List.map_cons, List.flatten_cons, List.length_cons, instanceTokens,
      List.cons_append, List.append_assoc, List.nil_append]
    simp only [parseInstances, parseProps_serialized i.properties _ hi]
    cases hq : parseInstances is.length ((is.map instanceTokens).flatten ++ rest) with
    | none =>
      have hih := ih rest his
      rw [hq] at hih
      exact Option.noConfusion hih
    | some pr =>
      obtain ⟨is1, r1⟩ := pr
      have hih := ih rest his
      rw [hq] at hih
      simp only [Option.map] at hih ⊢
      simp only [Option.some.injEq, Prod.mk.injEq] at hih
      obtain ⟨ha, hb⟩ := hih
      simp only [List.map_cons, ha, hb]
      have hhead : instObs (setPath
          { ScriptInstance.create "" with flags := i.flags, properties := i.properties }
          i.pathOrEmpty) = instObs i := by
        unfold instObs
        rw [pathOrEmpty_setPath]
        rfl
      rw [hhead]

theorem parseInlines_serialized (ics : List InlineScriptComponent) :
    ∀ rest : List Token,
      (parseInlines (fun e => e) ics.length
          ((ics.map (fun ic => [Token.tEntity ic.entity, Token.tStr ic.source])).flatten
            ++ rest)).map
          (fun r => (r.1.map inlineObs, r.2))
        = some (ics.map inlineObs, rest) := by
  induction ics with
  | nil => intro rest; rfl
  | cons ic ics ih =>
    intro rest
    simp only [List.map_cons, List.flatten_cons, List.length_cons,
      List.cons_append, List.append_assoc, List.nil_append]
    simp only [parseInlines]
    cases hq : parseInlines (fun e => e) ics.length
        ((ics.map (fun ic => [Token.tEntity ic.entity, Token.tStr ic.source])).flatten ++ rest) with
    | none =>
      have hih := ih rest
      rw [hq] at hih
      exact Option.noConfusion hih
    | some pr =>
      obtain ⟨is1, r1⟩ := pr
      have hih := ih rest
      rw [hq] at hih
      simp only [Option.map] at hih ⊢
      simp only [Option.some.injEq, Prod.mk.injEq] at hih
      obtain ⟨ha, hb⟩ := hih
      simp only [List.map_cons]
      rw [ha, hb]
      rfl

theorem parseComponents_serialized (cs : List ScriptComponent) :
    ∀ rest : List Token,
      cs.all (fun c => c.scripts.all
          (fun i => i.properties.all (fun p => p.type == PropType.any))) = true →
      (parseComponents (fun e => e) cs.length ((cs.map componentTokens).flatten ++ rest)).map
          (fun r => (r.1.map cmpObs, r.2))
        = some (cs.map cmpObs, rest) := by
  induction cs with
  | nil => intro rest _; rfl
  | cons c cs ih =>
    intro rest h
    simp only [List.all_cons, Bool.and_eq_true] at h
    obtain ⟨hc, hcs⟩ := h
    simp only [List.map_cons, List.flatten_cons, List.length_cons, componentTokens,
      List.cons_append, List.append_assoc, List.nil_append]
    simp only [parseComponents]
    have hinst := parseInstances_serialized c.scripts
      ((cs.map componentTokens).flatten ++ rest) hc
    cases hq1 : parseInstances c.scripts.length
        ((c.scripts.map instanceTokens).flatten ++ ((cs.map componentTokens).flatten ++ rest)) with
    | none =>
      rw [hq1] at hinst
      exact Option.noConfusion hinst
    | some pr1 =>
      obtain ⟨insts1, r1⟩ := pr1
      rw [hq1] at hinst
      simp only [Option.map, Option.some.injEq, Prod.mk.injEq] at hinst
      obtain ⟨ha1, hb1⟩ := hinst
      subst hb1
      cases hq2 : parseComponents (fun e => e) cs.length
          ((cs.map componentTokens).flatten ++ rest) with
      | none =>
        have hih := ih rest hcs
        rw [hq2] at hih
        exact Option.noConfusion hih
      | some pr2 =>
        obtain ⟨cs1, r2⟩ := pr2
        have hih := ih rest hcs
        rw [hq2] at hih
        simp only [Option.map, Option.some.injEq, Prod.mk.injEq] at hih
        obtain ⟨ha2, hb2⟩ := hih
        dsimp only
        rw [hq2]
        dsimp only [Option.map, List.map_cons]
        rw [ha2, hb2]
        have hhead : cmpObs { entity := c.entity, scripts := insts1 } = cmpObs c := by
          unfold cmpObs
          dsimp only
          rw [ha1]
        rw [hhead]

/-- C1: serializing a world and deserializing it through the identity
entity map into an empty world restores, for every (entity, slot), the
resource path, the full flag set (hence the enabled flag) and the
(hash, type, text) property triples, and for every inline component
its entity and literal source, consuming the whole stream.  The
hypothesis records the invariant that every property's type tag is ANY,
which holds in every reachable world because `getScriptProperty` and
`deserialize` — the only property creators — both stamp ANY. -/
theorem serialize_roundtrip (s : ModuleState) (h : allAnyB s = true) :
    (deserialize (serialize s) (fun e => e) emptyModuleState).map
        (fun r => (r.1.scripts.map cmpObs, r.1.inlineScripts.map inlineObs, r.2))
      = some (s.scripts.map cmpObs, s.inlineScripts.map inlineObs, ([] : List Token)) := by
  rw [serialize_eq_spec]
  unfold allAnyB at h
  unfold specSerialize deserialize
  simp only [List.cons_append, List.nil_append, List.append_assoc, List.singleton_append]
  have hin := parseInlines_serialized s.inlineScripts
    (Token.tInt s.scripts.length :: (s.scripts.map componentTokens).flatten)
  cases hq1 : parseInlines (fun e => e) s.inlineScripts.length
      ((s.inlineScripts.map (fun ic => [Token.tEntity ic.entity, Token.tStr ic.source])).flatten
        ++ Token.tInt s.scripts.length :: (s.scripts.map componentTokens).flatten) with
  | none =>
    rw [hq1] at hin
    exact Option.noConfusion hin
  | some pr1 =>
    obtain ⟨ics1, ts2⟩ := pr1
    rw [hq1] at hin
    simp only [Option.map, Option.some.injEq, Prod.mk.injEq] at hin
    obtain ⟨ha1, hb1⟩ := hin
    dsimp only
    subst hb1
    dsimp only
    have hcomp := parseComponents_serialized s.scripts [] h
    rw [List.append_nil] at hcomp
    cases hq2 : parseComponents (fun e => e) s.scripts.length
        ((s.scripts.map componentTokens).flatten) with
    | none =>
      rw [hq2] at hcomp
      exact Option.noConfusion hcomp
    | some pr2 =>
      obtain ⟨cs1, ts4⟩ := pr2
      rw [hq2] at hcomp
      simp only [Option.map, Option.some.injEq, Prod.mk.injEq] at hcomp
      obtain ⟨ha2, hb2⟩ := hcomp
      simp only [emptyModuleState, Option.map, List.nil_append]
      rw [ha1, ha2, hb2]

/-- Witness for C1: the one-component, one-inline world `stateEx`
round-trips. -/
theorem serialize_roundtrip_witness :
    (deserialize (serialize stateEx) (fun e => e) emptyModuleState).map
        (fun r => (r.1.scripts.map cmpObs, r.1.inlineScripts.map inlineObs, r.2))
      = some (stateEx.scripts.map cmpObs, stateEx.inlineScripts.map inlineObs, ([] : List Token)) :=
  serialize_roundtrip stateEx rfl

end LumixAS
